import Mathlib

/-!
Verification of the product HTTP server (`src/assignment/server.js`) against its
natural-language specification. The JavaScript code is shallowly embedded:
JavaScript primitive values are modelled by `JsVal` (numbers as exact rationals,
`NaN` as a separate constructor), request handlers become pure functions from a
store snapshot and request data to a new store and a response, and handlers that
can throw at runtime return `Except`.
-/

set_option autoImplicit false

namespace ExpressProducts

/-- Model of a JavaScript primitive value as it can appear in a JSON request
body: `undefined`, `null`, booleans, finite numbers (as exact rationals),
`NaN`, and strings. -/
inductive JsVal where
  | undef
  | jnull
  | jbool (b : Bool)
  | jnum (q : ℚ)
  | jnan
  | jstr (s : String)
deriving DecidableEq, Repr

/-- JavaScript truthiness: `undefined`, `null`, `false`, `0`, `NaN` and the
empty string are falsy, everything else is truthy. -/
def truthy : JsVal → Bool
  | .undef => false
  | .jnull => false
  | .jbool b => b
  | .jnum q => decide (q ≠ 0)
  | .jnan => false
  | .jstr s => !s.isEmpty

/-- Whether a value is exactly boolean-typed (`typeof v === 'boolean'`). -/
def isBoolVal : JsVal → Bool
  | .jbool _ => true
  | _ => false

/-- Whether a value is a string. -/
def isStrVal : JsVal → Bool
  | .jstr _ => true
  | _ => false

/-- Whether a value is a finite number. -/
def isNumVal : JsVal → Bool
  | .jnum _ => true
  | _ => false

/-- Whether a value has JavaScript type `number` (`typeof v === 'number'`);
this includes `NaN`. -/
def isNumberTyped : JsVal → Bool
  | .jnum _ => true
  | .jnan => true
  | _ => false

/-- Strip leading and trailing whitespace (the JavaScript string-to-number
coercions skip whitespace around the literal). -/
def trimWS (l : List Char) : List Char :=
  ((l.dropWhile Char.isWhitespace).reverse.dropWhile Char.isWhitespace).reverse

/-- `s.toLowerCase()` (character-wise lowercasing). -/
def lowerStr (s : String) : String :=
  String.mk (s.data.map Char.toLower)

/-- Split a list of characters into its leading run of decimal digits and the
rest. -/
def takeDigits : List Char → List Char × List Char
  | [] => ([], [])
  | c :: t =>
    if c.isDigit then
      let p := takeDigits t
      (c :: p.1, p.2)
    else ([], c :: t)

/-- Numeric value of a list of decimal digits. -/
def natOfDigits (l : List Char) : Nat :=
  l.foldl (fun a c => a * 10 + (c.toNat - 48)) 0

/-- Parse a leading unsigned run of decimal digits as an integer; `none` when
there is no leading digit (JavaScript `NaN`). -/
def intDigits (l : List Char) : Option Int :=
  let p := takeDigits l
  if p.1.isEmpty then none else some (natOfDigits p.1 : Int)

/-- Model of `parseInt(s)` (radix 10): skip leading whitespace, optional sign,
then the longest run of decimal digits; `none` models `NaN`. The hexadecimal
`0x` autodetection of JavaScript is not modelled (it never arises in this
development). -/
def parseIntStr (s : String) : Option Int :=
  match trimWS s.data with
  | '+' :: r => intDigits r
  | '-' :: r => (intDigits r).map (fun n => -n)
  | r => intDigits r

/-- `parseInt(q)` on a possibly absent query string: an absent parameter is
`undefined`, whose coercion to the string `"undefined"` parses to `NaN`. -/
def parseIntOpt (o : Option String) : Option Int :=
  match o with
  | none => none
  | some s => parseIntStr s

/-- Negation of a rational, written through `mkRat` so that it evaluates by
kernel reduction. -/
def ratNeg (q : ℚ) : ℚ :=
  mkRat (-q.num) q.den

/-- Addition of rationals, written through `mkRat` so that it evaluates by
kernel reduction; equal to `+` (see `ratAdd_eq`). -/
def ratAdd (x y : ℚ) : ℚ :=
  mkRat (x.num * y.den + y.num * x.den) (x.den * y.den)

/-- Division of rationals, written through `Rat.divInt` so that it evaluates
by kernel reduction; equal to `/` on a nonzero divisor (see `ratDiv_eq`). -/
def ratDiv (x y : ℚ) : ℚ :=
  Rat.divInt (x.num * y.den) (x.den * y.num)

/-- `q * 10 ^ e` for an integer exponent, written through `mkRat` so that it
evaluates by kernel reduction. -/
def applyExp10 (q : ℚ) (e : Int) : ℚ :=
  if 0 ≤ e then mkRat (q.num * 10 ^ e.toNat) q.den
  else mkRat q.num (q.den * 10 ^ (-e).toNat)

/-- Parse an unsigned decimal mantissa (`digits`, `digits.digits`, `.digits`
or `digits.`), returning its value and the unconsumed rest; `none` when no
digit is present at all. The decimal value `i.f` with `k` fraction digits is
the rational `(i*10^k + f) / 10^k`. -/
def parseMantissa (l : List Char) : Option (ℚ × List Char) :=
  let ip := takeDigits l
  match ip.2 with
  | '.' :: r2 =>
    let fp := takeDigits r2
    if ip.1.isEmpty && fp.1.isEmpty then none
    else some (mkRat ((natOfDigits ip.1 : Int) * 10 ^ fp.1.length +
      (natOfDigits fp.1 : Int)) (10 ^ fp.1.length), fp.2)
  | _ => if ip.1.isEmpty then none else some (mkRat (natOfDigits ip.1 : Int) 1, ip.2)

/-- Parse an optionally signed decimal mantissa. -/
def parseSigned (l : List Char) : Option (ℚ × List Char) :=
  match l with
  | '+' :: r => parseMantissa r
  | '-' :: r => (parseMantissa r).map (fun p => (ratNeg p.1, p.2))
  | _ => parseMantissa l

/-- Parse the tail of an exponent part (after the `e`/`E`): optional sign then
mandatory digits. -/
def parseExpTail (l : List Char) : Option (Int × List Char) :=
  match l with
  | '+' :: r => (intDigits r).map (fun n => (n, (takeDigits r).2))
  | '-' :: r => (intDigits r).map (fun n => (-n, (takeDigits r).2))
  | r => (intDigits r).map (fun n => (n, (takeDigits r).2))

/-- Parse an optional exponent part; when no `e`/`E` is present the exponent
is `0`, when an `e`/`E` is present its tail must be well-formed. -/
def parseExpOpt (l : List Char) : Option (Int × List Char) :=
  match l with
  | 'e' :: r => parseExpTail r
  | 'E' :: r => parseExpTail r
  | _ => some (0, l)

/-- Model of the `Number(string)` coercion on decimal notation: trim
whitespace, empty string is `0`, otherwise a fully consumed signed decimal
literal with optional exponent; `none` models `NaN`. The hexadecimal, octal,
binary and `Infinity` forms of JavaScript are not modelled (they never arise
in this development). -/
def parseNumberFull (s : String) : Option ℚ :=
  let l := trimWS s.data
  if l.isEmpty then some 0
  else
    match parseSigned l with
    | none => none
    | some p =>
      match parseExpOpt p.2 with
      | none => none
      | some e => if e.2.isEmpty then some (applyExp10 p.1 e.1) else none

/-- Model of `parseFloat(string)` on decimal notation: skip leading
whitespace, then the longest valid prefix of a signed decimal literal with
optional exponent; `none` models `NaN`. -/
def parseFloatPrefix (s : String) : Option ℚ :=
  match parseSigned (s.data.dropWhile Char.isWhitespace) with
  | none => none
  | some p =>
    match parseExpOpt p.2 with
    | some e => some (applyExp10 p.1 e.1)
    | none => some p.1

/-- Model of `parseFloat(v)`: the argument is coerced to a string and its
longest decimal prefix parsed. A finite number round-trips through its
decimal notation; `NaN`, booleans, `null` and `undefined` coerce to strings
with no numeric prefix, giving `NaN`. The result always has JavaScript type
`number`. -/
def parseFloatVal : JsVal → JsVal
  | .jnum q => .jnum q
  | .jstr s =>
    match parseFloatPrefix s with
    | some q => .jnum q
    | none => .jnan
  | _ => .jnan

/-- JavaScript `ToNumber` coercion; `none` models `NaN`. -/
def toNumber : JsVal → Option ℚ
  | .undef => none
  | .jnull => some 0
  | .jbool b => some (if b then 1 else 0)
  | .jnum q => some q
  | .jnan => none
  | .jstr s => parseNumberFull s

/-- Model of the global `isNaN(v)`: `ToNumber` coercion yields `NaN`. -/
def isNaNGlobal (v : JsVal) : Bool :=
  (toNumber v).isNone

/-- Model of JavaScript `<=`: two strings compare lexicographically, any
other pair compares numerically after `ToNumber`; comparisons involving `NaN`
are false. -/
def jsLE (a b : JsVal) : Bool :=
  match a, b with
  | .jstr x, .jstr y => decide (x ≤ y)
  | _, _ =>
    match toNumber a, toNumber b with
    | some x, some y => decide (x ≤ y)
    | _, _ => false

/-- Render a rational as JavaScript renders the corresponding decimal number:
integers without a point, terminating decimals with their digits. Rationals
with no terminating decimal expansion (which do not occur as JavaScript float
values in this development) fall back to a fraction notation. -/
def ratToString (q : ℚ) : String :=
  if q.den = 1 then toString q.num
  else
    match (List.range 31).find? (fun k => 10 ^ k % q.den == 0) with
    | some k =>
      let scaled : Nat := q.num.natAbs * (10 ^ k / q.den)
      let s := toString scaled
      let s := String.mk (List.replicate (k + 1 - s.length) '0') ++ s
      (if q.num < 0 then "-" else "") ++ s.dropRight k ++ "." ++ s.takeRight k
    | none => toString q.num ++ "/" ++ toString q.den

/-- JavaScript `ToString` on primitive values. -/
def jsToString : JsVal → String
  | .undef => "undefined"
  | .jnull => "null"
  | .jbool b => if b then "true" else "false"
  | .jnum q => ratToString q
  | .jnan => "NaN"
  | .jstr s => s

/-- JavaScript `+`: string concatenation when either operand is a string,
numeric addition otherwise (with `NaN` propagation). -/
def jsAdd (a b : JsVal) : JsVal :=
  match a, b with
  | .jstr s, b => .jstr (s ++ jsToString b)
  | a, .jstr s => .jstr (jsToString a ++ s)
  | a, b =>
    match toNumber a, toNumber b with
    | some x, some y => .jnum (ratAdd x y)
    | _, _ => .jnan

/-- JavaScript `/` after `ToNumber` coercion. Division of zero by zero is
`NaN`; division of a nonzero number by zero (JavaScript `Infinity`, which
cannot arise in this development: the only division is of an empty sum by a
zero length) is also mapped to the non-finite value `NaN`. -/
def jsDiv (a b : JsVal) : JsVal :=
  match toNumber a, toNumber b with
  | some x, some y => if y = 0 then .jnan else .jnum (ratDiv x y)
  | _, _ => .jnan

/-- JavaScript `a || b`. -/
def jsOr (a b : JsVal) : JsVal :=
  if truthy a then a else b

/-- Model of `x || d` where `x` is `parseInt`'s number-or-NaN result and `d`
a default: `NaN` and `0` are falsy and fall back to the default. -/
def numOr (x : Option Int) (d : Int) : Int :=
  match x with
  | none => d
  | some n => if n = 0 then d else n

/-! ## Data model

A stored product record (`server.js` lines 71-88, 141-148, 161-168). The
business fields hold whatever JavaScript values the request body supplied, so
they are modelled as `JsVal`; only `id` is always a string (a UUID assigned by
the server). -/

/-- A record of the in-memory `products` collection. -/
structure Product where
  id : String
  name : JsVal
  description : JsVal
  price : JsVal
  category : JsVal
  inStock : JsVal
deriving DecidableEq, Repr

/-- The five business fields destructured from a request body
(`const \x7b name, description, price, category, inStock \x7d = req.body`); a
field absent from the body is `undef`. -/
structure Payload where
  name : JsVal
  description : JsVal
  price : JsVal
  category : JsVal
  inStock : JsVal
deriving DecidableEq, Repr

/-- The field-keyed `errors` object built by `validateProduct`
(lines 28-35): one optional message per field. -/
structure ErrMap where
  name : Option String
  description : Option String
  price : Option String
  category : Option String
  inStock : Option String
deriving DecidableEq, Repr

/-- The error map with no keys. -/
def noErrors : ErrMap := ⟨none, none, none, none, none⟩

/-- `Object.keys(errors).length > 0` (line 37). -/
def hasErrors (e : ErrMap) : Bool :=
  e.name.isSome || e.description.isSome || e.price.isSome ||
    e.category.isSome || e.inStock.isSome

/-- The validation middleware (lines 26-45). Each check is translated in
source order; the two `price` checks write to the same key, the second
(line 33) overwriting the first (line 32) when its guard holds. -/
def validateProduct (b : Payload) : ErrMap :=
  let nameE := if !truthy b.name then some "Name is required" else none
  let descE := if !truthy b.description then some "Description is required" else none
  let priceE0 := if !truthy b.price then some "Price is required" else none
  let priceE :=
    if truthy b.price && (isNaNGlobal b.price || jsLE b.price (.jnum 0)) then
      some "Price must be a positive number"
    else priceE0
  let catE := if !truthy b.category then some "Category is required" else none
  let stockE := if !isBoolVal b.inStock then some "inStock must be a boolean" else none
  ⟨nameE, descE, priceE, catE, stockE⟩

/-- The auth middleware condition (lines 17-23):
`!apiKey || apiKey !== 'secret-api-key'`. The header is `none` when absent. -/
def authFails (apiKey : Option String) : Bool :=
  match apiKey with
  | none => true
  | some k => k.isEmpty || k != "secret-api-key"

/-! ## Responses -/

/-- The JSON body of the list endpoint (lines 122-127). -/
structure ListResp where
  total : Nat
  page : Int
  limit : Int
  data : List Product
deriving DecidableEq, Repr

/-- A value stored under a key of the `stats.categories` object: a finite
count, or the `NaN` produced by incrementing a function inherited from
`Object.prototype` (JSON-serialized as `null`). -/
inductive CatVal where
  | cnt (n : Nat)
  | nanCat
deriving DecidableEq, Repr

/-- JavaScript truthiness of a stored category value: `0` and `NaN` are
falsy. -/
def catTruthy : CatVal → Bool
  | .cnt n => decide (n ≠ 0)
  | .nanCat => false

/-- The `++` step on a stored category value: `NaN` stays `NaN`. -/
def catIncr : CatVal → CatVal
  | .cnt n => .cnt (n + 1)
  | .nanCat => .nanCat

/-- The JSON body of the stats endpoint (lines 184-190). The `categories`
object is modelled as the ordered list of its own key/value properties. -/
structure Stats where
  totalProducts : Nat
  categories : List (String × CatVal)
  inStock : Nat
  outOfStock : Nat
  averagePrice : JsVal
deriving DecidableEq, Repr

/-- A response body. -/
inductive Body where
  | textBody (s : String)
  | productBody (p : Product)
  | listBody (r : ListResp)
  | statsBody (s : Stats)
  | errorBody (message : String) (errors : Option ErrMap)
  | emptyBody
deriving DecidableEq, Repr

/-- An HTTP response: status code and body. -/
structure Response where
  status : Nat
  body : Body
deriving DecidableEq, Repr

/-- The data of a thrown error as seen by the global error handler:
`statusCode` (absent on plain `Error`s), `message`, and the optional `errors`
payload of a `ValidationError`. -/
structure ErrObj where
  statusCode : Option Nat
  message : String
  errors : Option ErrMap
deriving DecidableEq, Repr

/-- The global error handler (lines 204-217): status `err.statusCode || 500`,
message `err.message || 'Internal Server Error'`, and the `errors` payload
attached when present. -/
def errorHandler (e : ErrObj) : Response :=
  let statusCode :=
    match e.statusCode with
    | some n => if n = 0 then 500 else n
    | none => 500
  let msg := if e.message.isEmpty then "Internal Server Error" else e.message
  ⟨statusCode, .errorBody msg e.errors⟩

/-! ## The list endpoint (GET /api/products, lines 96-128) -/

/-- The optional query parameters of the list endpoint; each is a string when
present in the URL. -/
structure Query where
  category : Option String
  search : Option String
  page : Option String
  limit : Option String
deriving DecidableEq, Repr

/-- Truthiness of a possibly absent query string (`if (req.query.category)`):
present and non-empty. -/
def optTruthy : Option String → Bool
  | none => false
  | some s => !s.isEmpty

/-- `v.toLowerCase()`: defined on strings, a `TypeError` on any other value
(the thrown error propagates in `Except`). -/
def toLowerE : JsVal → Except String String
  | .jstr s => .ok (lowerStr s)
  | _ => .error "TypeError: toLowerCase is not a function"

/-- `Array.prototype.filter` with a predicate that can throw. -/
def filterE {α : Type} (f : α → Except String Bool) : List α → Except String (List α)
  | [] => .ok []
  | a :: t => do
    let b ← f a
    let r ← filterE f t
    pure (if b then a :: r else r)

/-- Whether `needle` is a prefix of `hay`. -/
def prefOf : List Char → List Char → Bool
  | [], _ => true
  | _ :: _, [] => false
  | a :: x, b :: y => a == b && prefOf x y

/-- Whether `needle` occurs as a contiguous sublist of `hay`. -/
def subList (needle : List Char) : List Char → Bool
  | [] => needle.isEmpty
  | b :: t => prefOf needle (b :: t) || subList needle t

/-- `hay.includes(needle)`: substring containment. -/
def containsSub (hay needle : String) : Bool :=
  subList needle.data hay.data

/-- `Array.prototype.slice(start, stop)` with JavaScript index clamping:
negative indices count from the end of the array. -/
def jsSlice {α : Type} (l : List α) (start stop : Int) : List α :=
  let len : Int := l.length
  let s := if start < 0 then max (len + start) 0 else min start len
  let e := if stop < 0 then max (len + stop) 0 else min stop len
  (l.drop s.toNat).take (e - s).toNat

/-- The category filter of the list handler (lines 100-104), applied when the
`category` query value is truthy: keep the products whose lowercased category
equals the lowercased query value. -/
def catFilterStep (store : List Product) (q : Query) : Except String (List Product) :=
  if optTruthy q.category then
    filterE (fun p => (toLowerE p.category).map
      (fun pc => pc == lowerStr (q.category.getD ""))) store
  else .ok store

/-- The name search of the list handler (lines 107-112), applied when the
`search` query value is truthy: keep the products whose lowercased name
contains the lowercased search term. -/
def searchFilterStep (l : List Product) (q : Query) : Except String (List Product) :=
  if optTruthy q.search then
    filterE (fun p => (toLowerE p.name).map
      (fun pn => containsSub pn (lowerStr (q.search.getD "")))) l
  else .ok l

/-- The GET `/api/products` handler (lines 96-128): category filter, name
search, then pagination. A `TypeError` thrown while filtering a store whose
`category`/`name` fields are not strings propagates as `Except.error`. -/
def listProducts (store : List Product) (q : Query) : Except String ListResp :=
  (catFilterStep store q).bind fun result1 =>
    (searchFilterStep result1 q).bind fun result =>
      let page := numOr (parseIntOpt q.page) 1
      let limit := numOr (parseIntOpt q.limit) 10
      let startIndex := (page - 1) * limit
      let endIndex := page * limit
      .ok ⟨result.length, page, limit, jsSlice result startIndex endIndex⟩

/-! ## The remaining handlers -/

/-- The GET `/api/products/:id` handler (lines 131-135): a missing id throws
`NotFoundError('Product not found')`, which the global error handler turns
into the 404 response. -/
def handleGetById (store : List Product) (pid : String) : Response :=
  match store.find? (fun p => p.id == pid) with
  | some p => ⟨200, .productBody p⟩
  | none => errorHandler ⟨some 404, "Product not found", none⟩

/-- The new record built by the POST handler (lines 141-148): a fresh id and
the body fields, with `price` passed through `parseFloat`. -/
def mkProduct (newId : String) (b : Payload) : Product :=
  ⟨newId, b.name, b.description, parseFloatVal b.price, b.category, b.inStock⟩

/-- The record written by the PUT handler (lines 161-168): the old record
spread first, so its `id` survives, and all five body fields written over it,
with `price` passed through `parseFloat`. -/
def updatedProduct (old : Product) (b : Payload) : Product :=
  ⟨old.id, b.name, b.description, parseFloatVal b.price, b.category, b.inStock⟩

/-- The POST `/api/products` chain (line 138): auth middleware, then
validation middleware, then the create handler. `newId` stands for the
`uuidv4()` value. Returns the store after the request and the response. -/
def postPipeline (apiKey : Option String) (b : Payload) (newId : String)
    (store : List Product) : List Product × Response :=
  if authFails apiKey then
    (store, ⟨401, .errorBody "Unauthorized: Invalid API key" none⟩)
  else
    let errs := validateProduct b
    if hasErrors errs then
      (store, ⟨400, .errorBody "Validation failed" (some errs)⟩)
    else
      let p := mkProduct newId b
      (store ++ [p], ⟨201, .productBody p⟩)

/-- The PUT `/api/products/:id` chain (lines 155-171): auth middleware, then
validation middleware, then the update handler, whose `NotFoundError` goes
through the global error handler. (`findIdx?` returns an in-range index, so
the inner `none` branch is unreachable.) -/
def putPipeline (apiKey : Option String) (b : Payload) (pid : String)
    (store : List Product) : List Product × Response :=
  if authFails apiKey then
    (store, ⟨401, .errorBody "Unauthorized: Invalid API key" none⟩)
  else
    let errs := validateProduct b
    if hasErrors errs then
      (store, ⟨400, .errorBody "Validation failed" (some errs)⟩)
    else
      match store.findIdx? (fun p => p.id == pid) with
      | none => (store, errorHandler ⟨some 404, "Product not found", none⟩)
      | some i =>
        match store[i]? with
        | none => (store, errorHandler ⟨some 404, "Product not found", none⟩)
        | some old =>
          let upd := updatedProduct old b
          (store.set i upd, ⟨200, .productBody upd⟩)

/-- The DELETE `/api/products/:id` chain (lines 174-180): auth middleware,
then the delete handler, which removes every record with the given id via
`filter` after the existence check. -/
def deletePipeline (apiKey : Option String) (pid : String)
    (store : List Product) : List Product × Response :=
  if authFails apiKey then
    (store, ⟨401, .errorBody "Unauthorized: Invalid API key" none⟩)
  else
    match store.findIdx? (fun p => p.id == pid) with
    | none => (store, errorHandler ⟨some 404, "Product not found", none⟩)
    | some _ => (store.filter (fun p => p.id != pid), ⟨204, .emptyBody⟩)

/-! ## The stats endpoint (GET /api/products/stats, lines 183-201) -/

/-- The property names a plain object inherits from `Object.prototype` as
data properties. Reading any of them on `stats.categories` yields a truthy
function whose `ToNumber` coercion is `NaN`; the accessor `__proto__` is
handled separately. -/
def protoProps : List String :=
  ["constructor", "hasOwnProperty", "isPrototypeOf", "propertyIsEnumerable",
    "toLocaleString", "toString", "valueOf", "__defineGetter__",
    "__defineSetter__", "__lookupGetter__", "__lookupSetter__"]

/-- Assignment to an existing own property of the object: the value is
replaced in place, keeping the key's insertion position. -/
def setOwn (acc : List (String × CatVal)) (c : String) (v : CatVal) :
    List (String × CatVal) :=
  acc.map (fun e => if e.1 == c then (e.1, v) else e)

/-- The own property of the `stats.categories` object under a key, with the
keys kept in property creation order. -/
def keyCount (acc : List (String × CatVal)) (c : String) : Option CatVal :=
  (acc.find? (fun e => e.1 == c)).map Prod.snd

/-- One step of the category count loop (lines 193-198) on the plain
`stats.categories` object, prototype chain included. An own property
shadows the chain: a falsy own value (`NaN`, or `0`) is re-initialised to 0
and incremented to 1, a truthy one is incremented. When no own property
exists, a name inherited from `Object.prototype` reads a truthy function,
so the `= 0` initialisation is skipped and the `++` stores `NaN` as a new
own key; for the accessor `__proto__` the read yields `Object.prototype`
(truthy, so no initialisation) and the `++`'s write of `NaN` is swallowed
by the inherited setter, creating no own key; any other absent key reads
`undefined`, is initialised to 0 and incremented to 1 as a new own key (new
keys go to the end of the object's string-key section). -/
def bumpCat (acc : List (String × CatVal)) (c : String) :
    List (String × CatVal) :=
  match keyCount acc c with
  | some v =>
    if catTruthy v then setOwn acc c (catIncr v)
    else setOwn acc c (.cnt 1)
  | none =>
    if c == "__proto__" then acc
    else if protoProps.contains c then acc ++ [(c, .nanCat)]
    else acc ++ [(c, .cnt 1)]

/-- The category histogram in property creation order; object keys coerce to
strings via `ToString`. -/
def histAux (ps : List Product) : List (String × CatVal) :=
  ps.foldl (fun acc p => bumpCat acc (jsToString p.category)) []

/-- Whether a string is a canonical array-index key: nonempty, all decimal
digits, no leading zero, and numerically below 2^32 - 1. JavaScript objects
order such keys numerically ascending before all other string keys. -/
def isIdxKey (s : String) : Bool :=
  !s.isEmpty && s.data.all Char.isDigit &&
    (s == "0" || s.data.headD ' ' != '0') &&
    decide (natOfDigits s.data < 4294967295)

/-- Insert an entry into a list of entries sorted by numeric key value. -/
def insByVal (x : String × CatVal) :
    List (String × CatVal) → List (String × CatVal)
  | [] => [x]
  | y :: t =>
    if natOfDigits x.1.data ≤ natOfDigits y.1.data then x :: y :: t
    else y :: insByVal x t

/-- Insertion sort of entries by numeric key value. -/
def sortIdx (l : List (String × CatVal)) : List (String × CatVal) :=
  l.foldr insByVal []

/-- JavaScript own-property key order of an object built by insertion:
array-index keys numerically ascending first, then the remaining keys in
insertion order. -/
def objOrder (l : List (String × CatVal)) : List (String × CatVal) :=
  sortIdx (l.filter (fun e => isIdxKey e.1)) ++ l.filter (fun e => !isIdxKey e.1)

/-- The stats handler (lines 183-201): totals, the in/out-of-stock partition
by truthiness of `inStock`, the average price `reduce(...) / length || 0`,
and the category histogram, serialized in JavaScript object key order. -/
def statsOf (ps : List Product) : Stats :=
  let priceSum := ps.foldl (fun acc p => jsAdd acc p.price) (.jnum 0)
  ⟨ps.length,
    objOrder (histAux ps),
    (ps.filter (fun p => truthy p.inStock)).length,
    (ps.filter (fun p => !truthy p.inStock)).length,
    jsOr (jsDiv priceSum (.jnum (ps.length : ℚ))) (.jnum 0)⟩

/-! ## Routing (registration order of lines 91, 96, 131, 138, 155, 174, 183)

Express matches an incoming request against the registered routes in
registration order and dispatches to the first route whose method and path
pattern match. -/

/-- An HTTP method. -/
inductive Method where
  | get
  | post
  | put
  | del
deriving DecidableEq, BEq, Repr

/-- One segment of a route pattern: a literal or a `:name` parameter. -/
inductive Seg where
  | lit (s : String)
  | param (s : String)
deriving DecidableEq, BEq, Repr

/-- Whether a pattern matches a path (split into nonempty segments); a
parameter segment matches any one segment. -/
def matchSegs : List Seg → List String → Bool
  | [], [] => true
  | .lit s :: pt, x :: xt => s == x && matchSegs pt xt
  | .param _ :: pt, x :: xt => !x.isEmpty && matchSegs pt xt
  | _, _ => false

/-- The routes of `server.js` in registration order. Index 2 is
`GET /api/products/:id` (line 131) and index 6 is `GET /api/products/stats`
(line 183). -/
def routeTable : List (Method × List Seg) :=
  [ (.get, []),
    (.get, [.lit "api", .lit "products"]),
    (.get, [.lit "api", .lit "products", .param "id"]),
    (.post, [.lit "api", .lit "products"]),
    (.put, [.lit "api", .lit "products", .param "id"]),
    (.del, [.lit "api", .lit "products", .param "id"]),
    (.get, [.lit "api", .lit "products", .lit "stats"]) ]

/-- The registration index of the first route matching a request. -/
def firstMatch (m : Method) (path : List String) : Option Nat :=
  routeTable.findIdx? (fun r => r.1 == m && matchSegs r.2 path)

/-- One store transition of the server: the store after a POST, PUT or DELETE
request (GET requests do not change the store). -/
inductive StoreStep : List Product → List Product → Prop where
  | post : ∀ apiKey b newId s, StoreStep s (postPipeline apiKey b newId s).1
  | update : ∀ apiKey b pid s, StoreStep s (putPipeline apiKey b pid s).1
  | remove : ∀ apiKey pid s, StoreStep s (deletePipeline apiKey pid s).1

/-! ## Specification-side descriptions

These definitions follow the words of the specification, to be compared with
the behaviour of the embedded handlers. -/

/-- Spec 4.4 step 1: keep only products whose category matches the query
parameter case-insensitively (exact match, not substring). -/
def specCatKeep (qc : String) (p : Product) : Bool :=
  match p.category with
  | .jstr s => lowerStr s == lowerStr qc
  | _ => false

/-- Spec 4.4 step 2: keep only products whose name contains the search term
as a case-insensitive substring. -/
def specNameKeep (qs : String) (p : Product) : Bool :=
  match p.name with
  | .jstr s => containsSub (lowerStr s) (lowerStr qs)
  | _ => false

/-- The filtered sequence of spec 4.4: category filter first, then name
search, each applied only when the parameter is present (and non-empty). -/
def specFiltered (store : List Product) (q : Query) : List Product :=
  let r1 :=
    if optTruthy q.category then store.filter (specCatKeep (q.category.getD ""))
    else store
  if optTruthy q.search then r1.filter (specNameKeep (q.search.getD "")) else r1

/-- The window `[(page-1)*limit, page*limit)` of a sequence, read literally
over the positions of the sequence as the claim states it. -/
def specWindow (l : List Product) (page limit : Int) : List Product :=
  (l.enum.filter (fun e =>
    decide ((page - 1) * limit ≤ (e.1 : Int)) &&
      decide ((e.1 : Int) < page * limit))).map Prod.snd

/-- The category names of a snapshot in first-seen order, each kept only at
its first occurrence. -/
def firstSeen : List String → List String
  | [] => []
  | c :: t => c :: (firstSeen t).filter (fun x => x != c)

/-- The number of occurrences of a string in a list. -/
def countStr (c : String) (l : List String) : Nat :=
  (l.filter (fun x => x == c)).length

/-- A category name that collides with no inherited property of a plain
object: neither a data property of `Object.prototype` nor the accessor
`__proto__`. -/
def goodKey (c : String) : Bool :=
  !protoProps.contains c && c != "__proto__"

/-- The numeric reading of an optional stored category value: a finite
count's value, and 0 for an absent key or a `NaN` value. -/
def catValNat (o : Option CatVal) : Nat :=
  match o with
  | some (.cnt n) => n
  | _ => 0

/-- The price of a product as a rational, for snapshots whose prices are
finite numbers. -/
def priceQ (p : Product) : ℚ :=
  match p.price with
  | .jnum q => q
  | _ => 0

/-- The object key a product's category coerces to. -/
def catStr (p : Product) : String :=
  jsToString p.category

/-- Insert a key into a list of keys sorted by numeric value. -/
def insKeyByVal (x : String) : List String → List String
  | [] => [x]
  | y :: t =>
    if natOfDigits x.data ≤ natOfDigits y.data then x :: y :: t
    else y :: insKeyByVal x t

/-- Insertion sort of keys by numeric value. -/
def sortKeys (l : List String) : List String :=
  l.foldr insKeyByVal []

/-- Boolean membership of a key in a key list, oriented like the histogram's
own key test. -/
def keyMem (ks : List String) (c : String) : Bool :=
  ks.any (fun x => x == c)

/-! ## Concrete data used by witnesses and counterexamples -/

/-- A product shaped like the first seed record. -/
def wLaptop : Product :=
  ⟨"a1", .jstr "Laptop", .jstr "High performance laptop", .jnum 1000,
    .jstr "Electronics", .jbool true⟩

/-- A product shaped like the second seed record. -/
def wPhone : Product :=
  ⟨"b2", .jstr "Smartphone", .jstr "Latest smartphone model", .jnum 700,
    .jstr "Electronics", .jbool true⟩

/-- An out-of-stock product in a second category. -/
def wBook : Product :=
  ⟨"c3", .jstr "Novel", .jstr "A paperback novel", .jnum 10, .jstr "Books",
    .jbool false⟩

/-- A product whose category name is the numeric string "2". -/
def wCatTwo : Product :=
  ⟨"d4", .jstr "Gadget", .jstr "A gadget", .jnum 10, .jstr "2", .jbool true⟩

/-- A product whose category name is the numeric string "1". -/
def wCatOne : Product :=
  ⟨"e5", .jstr "Tool", .jstr "A tool", .jnum 30, .jstr "1", .jbool false⟩

/-- A product whose category name is "toString", an inherited property of
every plain object. -/
def wToStr : Product :=
  ⟨"f6", .jstr "Odd", .jstr "An odd record", .jnum 5, .jstr "toString",
    .jbool true⟩

/-- A product whose category name is "__proto__". -/
def wProtoCat : Product :=
  ⟨"g7", .jstr "Odder", .jstr "An odder record", .jnum 7, .jstr "__proto__",
    .jbool true⟩

/-- A fully valid payload whose price is the numeric string "10.5". -/
def okPayload : Payload :=
  ⟨.jstr "Widget", .jstr "A fine widget", .jstr "10.5", .jstr "Tools", .jbool true⟩

/-- The spec 8 example payload: every field valid except the missing name. -/
def noNamePayload : Payload :=
  ⟨.undef, .jstr "x", .jnum 10, .jstr "c", .jbool true⟩

/-- A payload whose price is the number 0. -/
def zeroPricePayload : Payload :=
  ⟨.jstr "A", .jstr "B", .jnum 0, .jstr "C", .jbool true⟩

/-- A payload whose price is the number -5. -/
def negPricePayload : Payload :=
  ⟨.jstr "A", .jstr "B", .jnum (-5), .jstr "C", .jbool true⟩

/-! ## Theorems -/

/-- C1: GET `/api/products/stats` is dispatched to the route registered
first among those matching, which is `/api/products/:id` (registration index
2, line 131) and not `/api/products/stats` (registration index 6, line 183,
whose pattern would match). The request therefore runs the id lookup with
id `"stats"` and, since no product carries that id, returns 404 rather than
the 200 stats record the claim (and spec §6) require. -/
theorem c1_stats_route_shadowed (store : List Product)
    (h : ∀ p ∈ store, p.id ≠ "stats") :
    firstMatch .get ["api", "products", "stats"] = some 2 ∧
    routeTable[2]? = some (.get, [.lit "api", .lit "products", .param "id"]) ∧
    routeTable[6]? = some (.get, [.lit "api", .lit "products", .lit "stats"]) ∧
    matchSegs [.lit "api", .lit "products", .lit "stats"]
      ["api", "products", "stats"] = true ∧
    handleGetById store "stats" = ⟨404, .errorBody "Product not found" none⟩ := by
  refine ⟨by decide, by decide, by decide, by decide, ?_⟩
  have hf : store.find? (fun p => p.id == "stats") = none := by
    rw [List.find?_eq_none]
    intro p hp
    simp only [beq_iff_eq]
    exact h p hp
  rw [handleGetById, hf]
  rfl

/-- Witness for C1 at a concrete two-product store. -/
theorem c1_stats_route_shadowed_witness :
    (∀ p ∈ [wLaptop, wPhone], p.id ≠ "stats") ∧
    handleGetById [wLaptop, wPhone] "stats" =
      ⟨404, .errorBody "Product not found" none⟩ :=
  ⟨by decide, (c1_stats_route_shadowed [wLaptop, wPhone] (by decide)).2.2.2.2⟩

/-- C2 counterexample: a payload whose price is present and equal to 0 is
rejected with the missing-field message `Price is required` (the `!price`
check treats 0 as falsy), not the price-specific message the claim states. -/
theorem c2_zero_price_counterexample :
    (validateProduct zeroPricePayload).price = some "Price is required" ∧
    (some "Price is required" : Option String) ≠
      some "Price must be a positive number" := by
  exact ⟨rfl, by decide⟩

/-- C2 amended: a present price that coerces to a negative number (hence is
truthy, e.g. -5) is rejected with the price-specific message
`Price must be a positive number`, while a price equal to the number 0 is
falsy and is rejected with the missing-field message `Price is required`. -/
theorem c2_price_messages (b : Payload) :
    (∀ q : ℚ, truthy b.price = true → toNumber b.price = some q → q < 0 →
      (validateProduct b).price = some "Price must be a positive number") ∧
    (b.price = .jnum 0 → (validateProduct b).price = some "Price is required") := by
  constructor
  · intro q htr hq hneg
    have hnan : isNaNGlobal b.price = false := by
      simp [isNaNGlobal, hq]
    have hle : jsLE b.price (.jnum 0) = true := by
      cases hb : b.price with
      | undef => rw [hb] at hq; simp [toNumber] at hq
      | jnull =>
        rw [hb] at hq
        simp only [toNumber, Option.some.injEq] at hq
        subst hq
        exact absurd hneg (lt_irrefl 0)
      | jbool bv =>
        rw [hb] at hq
        cases bv <;> simp [toNumber] at hq <;> subst hq
        · exact absurd hneg (by norm_num)
        · exact absurd hneg (by norm_num)
      | jnum qv =>
        rw [hb] at hq
        simp only [toNumber, Option.some.injEq] at hq
        subst hq
        simp only [jsLE, toNumber, decide_eq_true_eq]
        exact le_of_lt hneg
      | jnan => rw [hb] at hq; simp [toNumber] at hq
      | jstr s =>
        rw [hb] at hq
        simp only [toNumber] at hq
        simp only [jsLE, toNumber, hq, decide_eq_true_eq]
        exact le_of_lt hneg
    simp [validateProduct, htr, hnan, hle]
  · intro h0
    simp [validateProduct, h0, truthy]

/-- Witness for C2: the amended message selection evaluated at price -5 and
price 0. -/
theorem c2_price_messages_witness :
    truthy negPricePayload.price = true ∧
    (validateProduct negPricePayload).price =
      some "Price must be a positive number" ∧
    (validateProduct zeroPricePayload).price = some "Price is required" :=
  ⟨by decide,
   (c2_price_messages negPricePayload).1 (-5) (by decide) (by decide) (by decide),
   (c2_price_messages zeroPricePayload).2 rfl⟩

/-- C3 counterexample: an unrecognized failure (no `statusCode`) whose
message is an internal detail is answered with status 500 but with that
internal message in the response body, not with a generic message only. -/
theorem c3_internal_message_leaked :
    errorHandler ⟨none, "connect ECONNREFUSED 127.0.0.1:5432", none⟩ =
      ⟨500, .errorBody "connect ECONNREFUSED 127.0.0.1:5432" none⟩ ∧
    "connect ECONNREFUSED 127.0.0.1:5432" ≠ "Internal Server Error" := by
  exact ⟨rfl, by decide⟩

/-- C3 amended: an unrecognized failure is answered with status 500, and the
surfaced message is the error's own message whenever it is non-empty; the
generic `Internal Server Error` appears only when the error's message is
empty. -/
theorem c3_unrecognized_error_translation (e : ErrObj) (h : e.statusCode = none) :
    (errorHandler e).status = 500 ∧
    (errorHandler e).body = .errorBody
      (if e.message.isEmpty then "Internal Server Error" else e.message)
      e.errors := by
  simp [errorHandler, h]

/-- Witness for C3 at a concrete unrecognized error. -/
theorem c3_unrecognized_error_translation_witness :
    (errorHandler ⟨none, "boom", none⟩).status = 500 ∧
    (errorHandler ⟨none, "boom", none⟩).body = .errorBody
      (if ("boom" : String).isEmpty then "Internal Server Error" else "boom")
      none :=
  c3_unrecognized_error_translation ⟨none, "boom", none⟩ rfl

/-- The auth check fails on every header value other than exactly
`secret-api-key`, including an absent header. -/
theorem authFails_of_ne {apiKey : Option String}
    (h : apiKey ≠ some "secret-api-key") : authFails apiKey = true := by
  cases apiKey with
  | none => rfl
  | some k =>
    have hk : k ≠ "secret-api-key" := fun he => h (by rw [he])
    simp only [authFails, Bool.or_eq_true, bne_iff_ne]
    exact Or.inr hk

/-- C7: a POST, PUT or DELETE request whose `x-api-key` header is missing or
differs from the shared secret is answered 401 and leaves the store
untouched, for every payload and id — the auth middleware short-circuits
before validation and before the handler. -/
theorem c7_auth_short_circuit (apiKey : Option String) (b : Payload)
    (newId pid : String) (store : List Product)
    (h : apiKey ≠ some "secret-api-key") :
    postPipeline apiKey b newId store =
      (store, ⟨401, .errorBody "Unauthorized: Invalid API key" none⟩) ∧
    putPipeline apiKey b pid store =
      (store, ⟨401, .errorBody "Unauthorized: Invalid API key" none⟩) ∧
    deletePipeline apiKey pid store =
      (store, ⟨401, .errorBody "Unauthorized: Invalid API key" none⟩) := by
  have hf := authFails_of_ne h
  exact ⟨by simp [postPipeline, hf], by simp [putPipeline, hf],
    by simp [deletePipeline, hf]⟩

/-- Witness for C7 with a mismatched key on a concrete store. -/
theorem c7_auth_short_circuit_witness :
    (some "wrong-key" : Option String) ≠ some "secret-api-key" ∧
    postPipeline (some "wrong-key") okPayload "n1" [wLaptop] =
      ([wLaptop], ⟨401, .errorBody "Unauthorized: Invalid API key" none⟩) :=
  ⟨by decide,
   (c7_auth_short_circuit (some "wrong-key") okPayload "n1" "a1" [wLaptop]
     (by decide)).1⟩

/-- C6: the five field rules are evaluated independently — each key of the
error map is present exactly when that field's rule fails — and a non-empty
error map makes the POST and PUT chains answer 400 with exactly that error
map, leaving the store untouched and never reaching the handler. -/
theorem c6_validation_exactness (b : Payload) (apiKey : Option String)
    (newId pid : String) (store : List Product)
    (hAuth : authFails apiKey = false) :
    ((validateProduct b).name.isSome = !truthy b.name) ∧
    ((validateProduct b).description.isSome = !truthy b.description) ∧
    ((validateProduct b).price.isSome =
      (!truthy b.price || isNaNGlobal b.price || jsLE b.price (.jnum 0))) ∧
    ((validateProduct b).category.isSome = !truthy b.category) ∧
    ((validateProduct b).inStock.isSome = !isBoolVal b.inStock) ∧
    (hasErrors (validateProduct b) = true →
      postPipeline apiKey b newId store =
        (store, ⟨400, .errorBody "Validation failed" (some (validateProduct b))⟩) ∧
      putPipeline apiKey b pid store =
        (store, ⟨400, .errorBody "Validation failed" (some (validateProduct b))⟩)) := by
  refine ⟨?_, ?_, ?_, ?_, ?_, ?_⟩
  · cases h : truthy b.name <;> simp [validateProduct, h]
  · cases h : truthy b.description <;> simp [validateProduct, h]
  · cases htr : truthy b.price <;> cases hn : isNaNGlobal b.price <;>
      cases hl : jsLE b.price (.jnum 0) <;> simp [validateProduct, htr, hn, hl]
  · cases h : truthy b.category <;> simp [validateProduct, h]
  · cases h : isBoolVal b.inStock <;> simp [validateProduct, h]
  · intro hE
    exact ⟨by simp [postPipeline, hAuth, hE], by simp [putPipeline, hAuth, hE]⟩

/-- Witness for C6 at the spec's example payload, whose only failing rule is
the missing name. -/
theorem c6_validation_exactness_witness :
    authFails (some "secret-api-key") = false ∧
    validateProduct noNamePayload =
      ⟨some "Name is required", none, none, none, none⟩ ∧
    postPipeline (some "secret-api-key") noNamePayload "n1" [wLaptop] =
      ([wLaptop],
        ⟨400, .errorBody "Validation failed" (some (validateProduct noNamePayload))⟩) :=
  ⟨by decide, by decide,
   ((c6_validation_exactness noNamePayload (some "secret-api-key") "n1" "x"
     [wLaptop] (by decide)).2.2.2.2.2 (by decide)).1⟩

/-- C8: a PUT of an existing id with a valid payload under a valid key
rewrites exactly the found record — the stored id is preserved, the five
business fields come from the payload (price through `parseFloat`) — returns
the updated record with 200, and leaves every other position of the store
unchanged; a PUT of an absent id answers 404 and leaves the store unchanged. -/
theorem c8_put_replace (apiKey : Option String) (b : Payload) (pid : String)
    (store : List Product)
    (hAuth : authFails apiKey = false)
    (hValid : hasErrors (validateProduct b) = false) :
    (store.findIdx? (fun p => p.id == pid) = none →
      putPipeline apiKey b pid store =
        (store, ⟨404, .errorBody "Product not found" none⟩)) ∧
    (∀ i old, store.findIdx? (fun p => p.id == pid) = some i →
      store[i]? = some old →
      putPipeline apiKey b pid store =
        (store.set i (updatedProduct old b),
          ⟨200, .productBody (updatedProduct old b)⟩) ∧
      (updatedProduct old b).id = old.id ∧
      (updatedProduct old b).name = b.name ∧
      (updatedProduct old b).description = b.description ∧
      (updatedProduct old b).price = parseFloatVal b.price ∧
      (updatedProduct old b).category = b.category ∧
      (updatedProduct old b).inStock = b.inStock ∧
      (∀ j, j ≠ i → (store.set i (updatedProduct old b))[j]? = store[j]?)) := by
  constructor
  · intro hnone
    have h404 : errorHandler ⟨some 404, "Product not found", none⟩ =
        ⟨404, .errorBody "Product not found" none⟩ := by decide
    simp [putPipeline, hAuth, hValid, hnone, h404]
  · intro i old hidx hold
    refine ⟨?_, rfl, rfl, rfl, rfl, rfl, rfl, ?_⟩
    · simp [putPipeline, hAuth, hValid, hidx, hold]
    · intro j hj
      exact List.getElem?_set_ne (Ne.symm hj)

/-- Witness for C8: updating the second record of a concrete store. -/
theorem c8_put_replace_witness :
    authFails (some "secret-api-key") = false ∧
    hasErrors (validateProduct okPayload) = false ∧
    putPipeline (some "secret-api-key") okPayload "b2" [wLaptop, wPhone] =
      ([wLaptop, updatedProduct wPhone okPayload],
        ⟨200, .productBody (updatedProduct wPhone okPayload)⟩) :=
  ⟨by decide, by decide, by
    have h := (c8_put_replace (some "secret-api-key") okPayload "b2"
      [wLaptop, wPhone] (by decide) (by decide)).2 1 wPhone (by decide) (by decide)
    rw [h.1]
    rfl⟩

/-- The result of `parseFloat` always has JavaScript type `number`. -/
theorem parseFloatVal_numberTyped (v : JsVal) :
    isNumberTyped (parseFloatVal v) = true := by
  cases v with
  | jstr s =>
    simp only [parseFloatVal]
    cases parseFloatPrefix s <;> rfl
  | undef => rfl
  | jnull => rfl
  | jbool bv => rfl
  | jnum q => rfl
  | jnan => rfl

/-- C10: every store transition preserves number-typed prices — create and
update write `parseFloat(price)`, which is always number-typed — and a price
supplied as the numeric string "10.5" passes validation and is stored as the
number 10.5. -/
theorem c10_stored_price_number_typed :
    (∀ s t : List Product, StoreStep s t →
      (∀ p ∈ s, isNumberTyped p.price = true) →
      (∀ p ∈ t, isNumberTyped p.price = true)) ∧
    hasErrors (validateProduct okPayload) = false ∧
    parseFloatVal (.jstr "10.5") = .jnum (mkRat 21 2) ∧
    (mkProduct "n1" okPayload).price = .jnum (mkRat 21 2) := by
  refine ⟨?_, by decide, by decide, by decide⟩
  intro s t hstep hs
  cases hstep with
  | post apiKey b newId s =>
    intro p hp
    cases ha : authFails apiKey with
    | true => simp [postPipeline, ha] at hp; exact hs p hp
    | false =>
      cases he : hasErrors (validateProduct b) with
      | true => simp [postPipeline, ha, he] at hp; exact hs p hp
      | false =>
        simp [postPipeline, ha, he] at hp
        rcases hp with hp | hp
        · exact hs p hp
        · rw [hp]
          exact parseFloatVal_numberTyped b.price
  | update apiKey b pid s =>
    intro p hp
    cases ha : authFails apiKey with
    | true => simp [putPipeline, ha] at hp; exact hs p hp
    | false =>
      cases he : hasErrors (validateProduct b) with
      | true => simp [putPipeline, ha, he] at hp; exact hs p hp
      | false =>
        rcases hidx : s.findIdx? (fun x => x.id == pid) with _ | i
        · simp [putPipeline, ha, he, hidx] at hp; exact hs p hp
        · rcases hold : s[i]? with _ | old
          · simp [putPipeline, ha, he, hidx, hold] at hp; exact hs p hp
          · simp [putPipeline, ha, he, hidx, hold] at hp
            rcases List.mem_or_eq_of_mem_set hp with hmem | heq
            · exact hs p hmem
            · rw [heq]
              exact parseFloatVal_numberTyped b.price
  | remove apiKey pid s =>
    intro p hp
    cases ha : authFails apiKey with
    | true => simp [deletePipeline, ha] at hp; exact hs p hp
    | false =>
      rcases hidx : s.findIdx? (fun x => x.id == pid) with _ | i
      · simp [deletePipeline, ha, hidx] at hp; exact hs p hp
      · simp [deletePipeline, ha, hidx] at hp
        exact hs p hp.1

/-- Witness for C10: the preservation applied to a concrete create step. -/
theorem c10_stored_price_number_typed_witness :
    (∀ p ∈ [wLaptop], isNumberTyped p.price = true) ∧
    (∀ p ∈ (postPipeline (some "secret-api-key") okPayload "n1" [wLaptop]).1,
      isNumberTyped p.price = true) :=
  ⟨by decide,
   c10_stored_price_number_typed.1 [wLaptop] _
     (StoreStep.post (some "secret-api-key") okPayload "n1" [wLaptop])
     (by decide)⟩

/-- A value recognized as a string is a `jstr`. -/
theorem isStrVal_exists {v : JsVal} (h : isStrVal v = true) : ∃ s, v = .jstr s := by
  cases v <;> first
    | exact ⟨_, rfl⟩
    | simp [isStrVal] at h

/-- `filterE` with a predicate that never throws on the list's members is the
plain filter. -/
theorem filterE_ok {α : Type} (f : α → Except String Bool) (g : α → Bool)
    (l : List α) (h : ∀ a ∈ l, f a = .ok (g a)) :
    filterE f l = .ok (l.filter g) := by
  induction l with
  | nil => rfl
  | cons a t ih =>
    have ha := h a (List.mem_cons_self a t)
    have ht := ih (fun x hx => h x (List.mem_cons_of_mem a hx))
    simp only [filterE, ha, ht, List.filter_cons]
    cases hga : g a <;> rfl

/-- On a store whose `category` and `name` fields are strings, the list
handler succeeds and its answer is the spec's filtered sequence, its length
as `total`, and the slice of the computed window. -/
theorem listProducts_ok (store : List Product) (q : Query)
    (h : ∀ p ∈ store, isStrVal p.category = true ∧ isStrVal p.name = true) :
    listProducts store q = .ok
      ⟨(specFiltered store q).length,
        numOr (parseIntOpt q.page) 1,
        numOr (parseIntOpt q.limit) 10,
        jsSlice (specFiltered store q)
          ((numOr (parseIntOpt q.page) 1 - 1) * numOr (parseIntOpt q.limit) 10)
          (numOr (parseIntOpt q.page) 1 * numOr (parseIntOpt q.limit) 10)⟩ := by
  have hcat : catFilterStep store q = .ok (if optTruthy q.category then
      store.filter (specCatKeep (q.category.getD "")) else store) := by
    unfold catFilterStep
    by_cases hc : optTruthy q.category = true
    · rw [if_pos hc, if_pos hc]
      apply filterE_ok
      intro p hp
      obtain ⟨s, hs⟩ := isStrVal_exists (h p hp).1
      simp [toLowerE, specCatKeep, hs, Except.map]
    · rw [if_neg hc, if_neg hc]
  have hmem1 : ∀ p ∈ (if optTruthy q.category then
      store.filter (specCatKeep (q.category.getD "")) else store),
      isStrVal p.name = true := by
    intro p hp
    refine (h p ?_).2
    by_cases hc : optTruthy q.category = true
    · rw [if_pos hc] at hp
      exact List.mem_of_mem_filter hp
    · rw [if_neg hc] at hp
      exact hp
  have hsearch : searchFilterStep (if optTruthy q.category then
      store.filter (specCatKeep (q.category.getD "")) else store) q =
      .ok (specFiltered store q) := by
    unfold searchFilterStep specFiltered
    by_cases hs : optTruthy q.search = true
    · rw [if_pos hs, if_pos hs]
      apply filterE_ok
      intro p hp
      obtain ⟨s, hsx⟩ := isStrVal_exists (hmem1 p hp)
      simp [toLowerE, specNameKeep, hsx, Except.map]
    · rw [if_neg hs, if_neg hs]
  unfold listProducts
  rw [hcat]
  simp only [Except.bind]
  rw [hsearch]

/-- C4: on every store snapshot (with string-typed names and categories, as
the data model requires) and query, the list handler first keeps products
whose category equals the `category` parameter case-insensitively (exact
match), then keeps products whose name contains the `search` parameter as a
case-insensitive substring, and answers with `total` equal to the filtered
count before pagination and `data` the paginated slice of that filtered
sequence. -/
theorem c4_filter_search_total (store : List Product) (q : Query)
    (h : ∀ p ∈ store, isStrVal p.category = true ∧ isStrVal p.name = true) :
    listProducts store q = .ok
      ⟨(specFiltered store q).length,
        numOr (parseIntOpt q.page) 1,
        numOr (parseIntOpt q.limit) 10,
        jsSlice (specFiltered store q)
          ((numOr (parseIntOpt q.page) 1 - 1) * numOr (parseIntOpt q.limit) 10)
          (numOr (parseIntOpt q.page) 1 * numOr (parseIntOpt q.limit) 10)⟩ :=
  listProducts_ok store q h

/-- Witness for C4: the spec's example query `?category=Electronics&search=lap`
against seed-shaped data returns only the Laptop record with total 1. -/
theorem c4_filter_search_total_witness :
    (∀ p ∈ [wLaptop, wPhone],
      isStrVal p.category = true ∧ isStrVal p.name = true) ∧
    listProducts [wLaptop, wPhone] ⟨some "Electronics", some "lap", none, none⟩ =
      .ok ⟨1, 1, 10, [wLaptop]⟩ :=
  ⟨by decide,
   (c4_filter_search_total [wLaptop, wPhone]
     ⟨some "Electronics", some "lap", none, none⟩ (by decide)).trans
     (congrArg Except.ok (by decide))⟩

/-- C5 counterexample: with `page=-1&limit=1` on a two-product store the
handler does not fail, but its `data` is the first product — JavaScript
`slice` reads the negative bounds from the end of the array — whereas the
window `[(page-1)*limit, page*limit) = [-2,-1)` of the claim contains no
position of the sequence, so the claimed empty slice is wrong. -/
theorem c5_negative_page_counterexample :
    listProducts [wLaptop, wPhone] ⟨none, none, some "-1", some "1"⟩ =
      .ok ⟨2, -1, 1, [wLaptop]⟩ ∧
    specWindow [wLaptop, wPhone] (-1) 1 = [] ∧
    ([wLaptop] : List Product) ≠ [] := by
  refine ⟨?_, by decide, by decide⟩
  exact (listProducts_ok [wLaptop, wPhone]
    ⟨none, none, some "-1", some "1"⟩ (by decide)).trans
    (congrArg Except.ok (by decide))

/-- For nonnegative bounds, the JavaScript slice is the drop/take window. -/
theorem jsSlice_nonneg {α : Type} (l : List α) (s e : Int) (hs : 0 ≤ s)
    (he : 0 ≤ e) :
    jsSlice l s e = (l.drop s.toNat).take (e.toNat - s.toNat) := by
  simp only [jsSlice]
  rw [if_neg (not_lt.mpr hs), if_neg (not_lt.mpr he)]
  rcases le_or_lt (l.length : Int) s with h1 | h1
  · rw [min_eq_right h1]
    have hLs : l.length ≤ s.toNat := by omega
    rw [Int.toNat_natCast, List.drop_length, List.drop_eq_nil_of_le hLs]
    simp
  · rw [min_eq_left (le_of_lt h1), List.take_eq_take]
    simp only [List.length_drop]
    omega

/-- A nonnegative start at or past the end of the list slices to nothing. -/
theorem jsSlice_out {α : Type} (l : List α) (s e : Int) (hs : 0 ≤ s)
    (h : l.length ≤ s.toNat) : jsSlice l s e = [] := by
  simp only [jsSlice]
  rw [if_neg (not_lt.mpr hs)]
  have hmin : min s (l.length : Int) = (l.length : Int) := min_eq_right (by omega)
  rw [hmin, Int.toNat_natCast, List.drop_length]
  simp

/-- C5 amended: the list handler never fails for any `page`/`limit` values;
non-parseable (and zero, which is falsy) values fall back to the defaults 1
and 10; the data slice is the JavaScript slice of the window
`[(page-1)*limit, page*limit)`, which for `page ≥ 1` and `limit ≥ 0` is the
drop/take window of the filtered sequence and is empty when the window starts
at or past its end; negative values are read by `slice` relative to the end
of the sequence (see the counterexample), not as an empty window. -/
theorem c5_pagination_safety (store : List Product) (q : Query)
    (h : ∀ p ∈ store, isStrVal p.category = true ∧ isStrVal p.name = true) :
    listProducts store q = .ok
      ⟨(specFiltered store q).length,
        numOr (parseIntOpt q.page) 1,
        numOr (parseIntOpt q.limit) 10,
        jsSlice (specFiltered store q)
          ((numOr (parseIntOpt q.page) 1 - 1) * numOr (parseIntOpt q.limit) 10)
          (numOr (parseIntOpt q.page) 1 * numOr (parseIntOpt q.limit) 10)⟩ ∧
    (parseIntOpt q.page = none → numOr (parseIntOpt q.page) 1 = 1) ∧
    (parseIntOpt q.limit = none → numOr (parseIntOpt q.limit) 10 = 10) ∧
    (∀ (l : List Product) (pg lim : Int), 1 ≤ pg → 0 ≤ lim →
      jsSlice l ((pg - 1) * lim) (pg * lim) =
        (l.drop ((pg - 1) * lim).toNat).take lim.toNat) ∧
    (∀ (l : List Product) (pg lim : Int), 0 ≤ (pg - 1) * lim →
      l.length ≤ ((pg - 1) * lim).toNat →
      jsSlice l ((pg - 1) * lim) (pg * lim) = []) := by
  refine ⟨listProducts_ok store q h, ?_, ?_, ?_, ?_⟩
  · intro hp
    rw [hp]
    rfl
  · intro hp
    rw [hp]
    rfl
  · intro l pg lim hpg hlim
    have e1 : 0 ≤ (pg - 1) * lim := mul_nonneg (by omega) hlim
    have e2 : pg * lim = (pg - 1) * lim + lim := by ring
    rw [jsSlice_nonneg _ _ _ e1 (by omega)]
    congr 1
    omega
  · intro l pg lim h1 h2
    exact jsSlice_out _ _ _ h1 h2

/-- Witness for C5: a non-numeric page value falls back to the defaults and
the whole store is returned. -/
theorem c5_pagination_safety_witness :
    (∀ p ∈ [wLaptop, wPhone],
      isStrVal p.category = true ∧ isStrVal p.name = true) ∧
    listProducts [wLaptop, wPhone] ⟨none, none, some "abc", none⟩ =
      .ok ⟨2, 1, 10, [wLaptop, wPhone]⟩ :=
  ⟨by decide,
   ((c5_pagination_safety [wLaptop, wPhone]
     ⟨none, none, some "abc", none⟩ (by decide)).1).trans
     (congrArg Except.ok (by decide))⟩

/-- A value recognized as a finite number is a `jnum`. -/
theorem isNumVal_exists {v : JsVal} (h : isNumVal v = true) : ∃ q, v = .jnum q := by
  cases v <;> first
    | exact ⟨_, rfl⟩
    | simp [isNumVal] at h

/-- A value recognized as a boolean is a `jbool`. -/
theorem isBoolVal_exists {v : JsVal} (h : isBoolVal v = true) : ∃ b, v = .jbool b := by
  cases v <;> first
    | exact ⟨_, rfl⟩
    | simp [isBoolVal] at h

/-- `keyCount` at a matching head entry. -/
theorem keyCount_cons_pos (e : String × CatVal) (t : List (String × CatVal))
    (c : String) (he : (e.1 == c) = true) :
    keyCount (e :: t) c = some e.2 := by
  simp [keyCount, List.find?, he]

/-- `keyCount` skips a non-matching head entry. -/
theorem keyCount_cons_neg (e : String × CatVal) (t : List (String × CatVal))
    (c : String) (he : (e.1 == c) = false) :
    keyCount (e :: t) c = keyCount t c := by
  simp [keyCount, List.find?, he]

/-- Writing an existing own key replaces its stored value. -/
theorem keyCount_setOwn_self (acc : List (String × CatVal)) (c : String)
    (v : CatVal) :
    keyCount (setOwn acc c v) c = (keyCount acc c).map (fun _ => v) := by
  unfold setOwn
  induction acc with
  | nil => rfl
  | cons e t ih =>
    cases he : (e.1 == c) with
    | true =>
      rw [List.map_cons, if_pos he, keyCount_cons_pos e t c he,
        keyCount_cons_pos (e.1, v) _ c he]
      rfl
    | false =>
      rw [List.map_cons, if_neg (by simp [he]), keyCount_cons_neg e t c he,
        keyCount_cons_neg e _ c he]
      exact ih

/-- Writing one own key leaves other keys' values alone. -/
theorem keyCount_setOwn_other (acc : List (String × CatVal)) (b c : String)
    (v : CatVal) (hne : (c == b) = false) :
    keyCount (setOwn acc b v) c = keyCount acc c := by
  unfold setOwn
  induction acc with
  | nil => rfl
  | cons e t ih =>
    by_cases heb : (e.1 == b) = true
    · rw [List.map_cons, if_pos heb]
      cases hec : (e.1 == c) with
      | true =>
        exfalso
        have h1 : e.1 = c := eq_of_beq hec
        have h2 : e.1 = b := eq_of_beq heb
        rw [← h1, h2] at hne
        simp at hne
      | false =>
        rw [keyCount_cons_neg e t c hec, keyCount_cons_neg (e.1, v) _ c hec]
        exact ih
    · rw [List.map_cons, if_neg heb]
      cases hec : (e.1 == c) with
      | true => rw [keyCount_cons_pos e t c hec, keyCount_cons_pos e _ c hec]
      | false =>
        rw [keyCount_cons_neg e t c hec, keyCount_cons_neg e _ c hec]
        exact ih

/-- Appending a fresh entry stores its value under its key. -/
theorem keyCount_append_self (acc : List (String × CatVal)) (c : String)
    (v : CatVal) (h : keyCount acc c = none) :
    keyCount (acc ++ [(c, v)]) c = some v := by
  induction acc with
  | nil => rw [List.nil_append, keyCount_cons_pos _ _ _ (beq_self_eq_true c)]
  | cons e t ih =>
    have he : (e.1 == c) = false := by
      cases he2 : (e.1 == c) with
      | true => rw [keyCount_cons_pos e t c he2] at h; cases h
      | false => rfl
    rw [keyCount_cons_neg e t c he] at h
    rw [List.cons_append, keyCount_cons_neg e _ c he]
    exact ih h

/-- Appending an entry under one key leaves other keys' values alone. -/
theorem keyCount_append_other (acc : List (String × CatVal)) (b c : String)
    (v : CatVal) (hne : (c == b) = false) :
    keyCount (acc ++ [(b, v)]) c = keyCount acc c := by
  have hbc : (((b, v)).1 == c) = false := by
    cases h : (b == c) with
    | true => rw [eq_of_beq h] at hne; simp at hne
    | false => rfl
  induction acc with
  | nil => rw [List.nil_append, keyCount_cons_neg _ _ _ hbc]
  | cons e t ih =>
    cases hec : (e.1 == c) with
    | true =>
      rw [List.cons_append, keyCount_cons_pos e _ c hec, keyCount_cons_pos e t c hec]
    | false =>
      rw [List.cons_append, keyCount_cons_neg e _ c hec,
        keyCount_cons_neg e t c hec, ih]

/-- `bumpCat` when the own key is present: rewrite the old value. -/
theorem bumpCat_of_some (acc : List (String × CatVal)) (c : String)
    (v : CatVal) (hk : keyCount acc c = some v) :
    bumpCat acc c =
      if catTruthy v then setOwn acc c (catIncr v)
      else setOwn acc c (.cnt 1) := by
  unfold bumpCat
  rw [hk]

/-- `bumpCat` when the own key is absent: prototype-chain cases. -/
theorem bumpCat_of_none (acc : List (String × CatVal)) (c : String)
    (hk : keyCount acc c = none) :
    bumpCat acc c =
      if c == "__proto__" then acc
      else if protoProps.contains c then acc ++ [(c, .nanCat)]
      else acc ++ [(c, .cnt 1)] := by
  unfold bumpCat
  rw [hk]

/-- One bump at a key that collides with nothing inherited, on an object
whose value there, if any, is a positive count: the count grows by one. -/
theorem keyCount_bumpCat_good (acc : List (String × CatVal)) (c : String)
    (hgood : goodKey c = true)
    (hacc : ∀ v, keyCount acc c = some v → ∃ n, v = .cnt n ∧ 0 < n) :
    keyCount (bumpCat acc c) c =
      some (.cnt (catValNat (keyCount acc c) + 1)) := by
  have hcand : (!protoProps.contains c && c != "__proto__") = true := hgood
  rw [Bool.and_eq_true] at hcand
  have hc1 : protoProps.contains c = false := by
    cases hpc : protoProps.contains c with
    | false => rfl
    | true => rw [hpc] at hcand; exact absurd hcand.1 (by simp)
  have hc2 : (c == "__proto__") = false := by
    cases hpp : (c == "__proto__") with
    | false => rfl
    | true => exact absurd (eq_of_beq hpp) (bne_iff_ne.mp hcand.2)
  cases hk : keyCount acc c with
  | some v =>
    obtain ⟨n, hv, hn⟩ := hacc v hk
    subst hv
    have htr : catTruthy (.cnt n) = true := by
      simp [catTruthy]
      omega
    rw [bumpCat_of_some acc c _ hk, if_pos htr, keyCount_setOwn_self, hk]
    simp [catIncr, catValNat]
  | none =>
    rw [bumpCat_of_none acc c hk,
      if_neg (show ¬(c == "__proto__") = true by rw [hc2]; exact Bool.false_ne_true),
      if_neg (show ¬protoProps.contains c = true by rw [hc1]; exact Bool.false_ne_true),
      keyCount_append_self acc c _ hk]
    simp [catValNat]

/-- One bump leaves other keys' values alone — in every branch, including
the inherited-property ones. -/
theorem keyCount_bumpCat_other (acc : List (String × CatVal)) (b c : String)
    (hne : (c == b) = false) :
    keyCount (bumpCat acc b) c = keyCount acc c := by
  cases hk : keyCount acc b with
  | some v =>
    rw [bumpCat_of_some acc b v hk]
    by_cases htr : catTruthy v = true
    · rw [if_pos htr, keyCount_setOwn_other acc b c _ hne]
    · rw [if_neg htr, keyCount_setOwn_other acc b c _ hne]
  | none =>
    rw [bumpCat_of_none acc b hk]
    by_cases hp : (b == "__proto__") = true
    · rw [if_pos hp]
    · rw [if_neg hp]
      by_cases hpp : protoProps.contains b = true
      · rw [if_pos hpp, keyCount_append_other acc b c _ hne]
      · rw [if_neg hpp, keyCount_append_other acc b c _ hne]

/-- The histogram fold over categories that collide with nothing inherited:
stored values are positive counts, each key's count grows by its number of
occurrences, and a key is present exactly when it was present before or
occurs. -/
theorem keyCount_foldl_good (cs : List String) (c : String) :
    ∀ acc : List (String × CatVal),
      (∀ x ∈ cs, goodKey x = true) →
      (∀ v, keyCount acc c = some v → ∃ n, v = .cnt n ∧ 0 < n) →
      (∀ v, keyCount (cs.foldl bumpCat acc) c = some v →
        ∃ n, v = .cnt n ∧ 0 < n) ∧
      catValNat (keyCount (cs.foldl bumpCat acc) c) =
        catValNat (keyCount acc c) + countStr c cs ∧
      (keyCount (cs.foldl bumpCat acc) c).isSome =
        ((keyCount acc c).isSome || decide (0 < countStr c cs)) := by
  induction cs with
  | nil =>
    intro acc hcs hacc
    exact ⟨hacc, by simp [countStr], by simp [countStr]⟩
  | cons c2 cs ih =>
    intro acc hcs hacc
    rw [List.foldl_cons]
    have hg2 : goodKey c2 = true := hcs c2 (List.mem_cons_self c2 cs)
    have hcs2 : ∀ x ∈ cs, goodKey x = true :=
      fun x hx => hcs x (List.mem_cons_of_mem c2 hx)
    by_cases hcc : c = c2
    · subst hcc
      have hb := keyCount_bumpCat_good acc c hg2 hacc
      have hacc2 : ∀ v, keyCount (bumpCat acc c) c = some v →
          ∃ n, v = .cnt n ∧ 0 < n := by
        intro v hv
        rw [hb] at hv
        injection hv with h2
        exact ⟨catValNat (keyCount acc c) + 1, h2.symm, Nat.succ_pos _⟩
      obtain ⟨ih1, ih2, ih3⟩ := ih (bumpCat acc c) hcs2 hacc2
      have hcnt : countStr c (c :: cs) = countStr c cs + 1 := by
        simp [countStr, List.filter_cons]
      refine ⟨ih1, ?_, ?_⟩
      · rw [ih2, hb, hcnt]
        simp [catValNat]
        omega
      · rw [ih3, hb, hcnt]
        simp
    · have hne : ((c : String) == c2) = false := by simp [hcc]
      have hne2 : ((c2 : String) == c) = false := by simp [Ne.symm hcc]
      have hb := keyCount_bumpCat_other acc c2 c hne
      have hacc2 : ∀ v, keyCount (bumpCat acc c2) c = some v →
          ∃ n, v = .cnt n ∧ 0 < n := by
        intro v hv
        rw [hb] at hv
        exact hacc v hv
      obtain ⟨ih1, ih2, ih3⟩ := ih (bumpCat acc c2) hcs2 hacc2
      have hcnt : countStr c (c2 :: cs) = countStr c cs := by
        simp [countStr, List.filter_cons, hne2]
      exact ⟨ih1, by rw [ih2, hb, hcnt], by rw [ih3, hb, hcnt]⟩

/-- Key sequences are unchanged by writing an existing own key. -/
theorem map_fst_setOwn (acc : List (String × CatVal)) (c : String)
    (v : CatVal) :
    (setOwn acc c v).map Prod.fst = acc.map Prod.fst := by
  unfold setOwn
  rw [List.map_map]
  apply List.map_congr_left
  intro e he
  show (if e.1 == c then (e.1, v) else e).1 = e.1
  split <;> rfl

/-- The bumped object's key sequence, for a key other than `__proto__`:
unchanged when the own key exists, the new key appended otherwise. -/
theorem keys_bumpCat (acc : List (String × CatVal)) (c : String)
    (hc : (c == "__proto__") = false) :
    (bumpCat acc c).map Prod.fst =
      if (keyCount acc c).isSome = true then acc.map Prod.fst
      else acc.map Prod.fst ++ [c] := by
  cases hk : keyCount acc c with
  | some v =>
    rw [bumpCat_of_some acc c v hk, if_pos (show (some v).isSome = true from rfl)]
    by_cases htr : catTruthy v = true
    · rw [if_pos htr, map_fst_setOwn]
    · rw [if_neg htr, map_fst_setOwn]
  | none =>
    rw [bumpCat_of_none acc c hk,
      if_neg (show ¬(none : Option CatVal).isSome = true by simp),
      if_neg (show ¬(c == "__proto__") = true by rw [hc]; exact Bool.false_ne_true)]
    by_cases hp : protoProps.contains c = true
    · rw [if_pos hp, List.map_append]
      rfl
    · rw [if_neg hp, List.map_append]
      rfl

/-- `keyMem` over the key sequence is own-key existence. -/
theorem keyMem_eq_keyCount (acc : List (String × CatVal)) (c : String) :
    keyMem (acc.map Prod.fst) c = (keyCount acc c).isSome := by
  induction acc with
  | nil => rfl
  | cons e t ih =>
    cases he : (e.1 == c) with
    | true =>
      simp [keyMem, List.map_cons, List.any_cons, he, keyCount_cons_pos e t c he]
    | false =>
      simp only [keyMem, List.map_cons, List.any_cons, he, Bool.false_or] at ih ⊢
      rw [keyCount_cons_neg e t c he]
      exact ih

/-- `keyMem` distributes over append. -/
theorem keyMem_append (ks ks2 : List String) (c : String) :
    keyMem (ks ++ ks2) c = (keyMem ks c || keyMem ks2 c) := by
  simp [keyMem, List.any_append]

/-- The key sequence produced by the histogram fold, for categories other
than `__proto__`: the incoming keys followed by the first occurrences of
the unseen categories. -/
theorem keys_foldl (cs : List String) :
    ∀ acc : List (String × CatVal),
      (∀ x ∈ cs, (x == "__proto__") = false) →
      (cs.foldl bumpCat acc).map Prod.fst =
        acc.map Prod.fst ++
          (firstSeen cs).filter (fun c => !keyMem (acc.map Prod.fst) c) := by
  induction cs with
  | nil =>
    intro acc hcs
    simp [firstSeen]
  | cons c cs ih =>
    intro acc hcs
    have hc : (c == "__proto__") = false := hcs c (List.mem_cons_self c cs)
    have hcs2 : ∀ x ∈ cs, (x == "__proto__") = false :=
      fun x hx => hcs x (List.mem_cons_of_mem c hx)
    rw [List.foldl_cons, ih (bumpCat acc c) hcs2, keys_bumpCat acc c hc]
    by_cases hk : (keyCount acc c).isSome = true
    · rw [if_pos hk]
      have hkm : keyMem (acc.map Prod.fst) c = true := by
        rw [keyMem_eq_keyCount]
        exact hk
      simp only [firstSeen, List.filter_cons, hkm, Bool.not_true, if_false]
      rw [List.filter_filter]
      congr 1
      apply List.filter_congr
      intro a ha
      cases hkma : keyMem (acc.map Prod.fst) a with
      | true => simp [hkma]
      | false =>
        have hne : a ≠ c := by
          intro he
          rw [he, hkm] at hkma
          cases hkma
        simp [hkma, bne_iff_ne, hne]
    · rw [if_neg hk]
      have hkm : keyMem (acc.map Prod.fst) c = false := by
        rw [keyMem_eq_keyCount]
        rwa [Bool.not_eq_true] at hk
      simp only [firstSeen, List.filter_cons, hkm, Bool.not_false, if_true]
      rw [List.append_assoc, List.singleton_append]
      congr 1
      rw [List.filter_filter]
      congr 1
      apply List.filter_congr
      intro a ha
      rw [keyMem_append]
      have h1 : keyMem [c] a = (c == a) := by simp [keyMem]
      rw [h1]
      cases hkma : keyMem (acc.map Prod.fst) a with
      | true => simp [hkma]
      | false =>
        cases hca : (c == a) with
        | true =>
          have ha2 : a = c := (eq_of_beq hca).symm
          simp [hkma, hca, ha2]
        | false =>
          have hac : (a == c) = false := by
            cases h2 : (a == c) with
            | true =>
              rw [eq_of_beq h2, beq_self_eq_true] at hca
              cases hca
            | false => rfl
          simp [hkma, hca, bne, hac]

/-- The first-seen key sequence has no duplicates. -/
theorem firstSeen_nodup (l : List String) : (firstSeen l).Nodup := by
  induction l with
  | nil => exact List.nodup_nil
  | cons c t ih =>
    simp only [firstSeen]
    refine List.nodup_cons.mpr ⟨?_, List.Nodup.filter _ ih⟩
    intro hmem
    have h2 := (List.mem_filter.mp hmem).2
    simp at h2

/-- In an object with distinct keys, membership of an entry determines the
key's stored value. -/
theorem keyCount_of_mem_nodup (l : List (String × CatVal))
    (hnd : (l.map Prod.fst).Nodup) (c : String) (v : CatVal)
    (h : (c, v) ∈ l) : keyCount l c = some v := by
  induction l with
  | nil => cases h
  | cons e t ih =>
    rw [List.map_cons] at hnd
    rcases List.mem_cons.mp h with he | ht
    · rw [← he, keyCount_cons_pos (c, v) t c (beq_self_eq_true c)]
    · have hfst : c ∈ t.map Prod.fst := by
        have h2 := List.mem_map_of_mem Prod.fst ht
        simpa using h2
      have hne : (e.1 == c) = false := by
        cases h2 : (e.1 == c) with
        | true =>
          have h3 : e.1 = c := eq_of_beq h2
          have h4 := (List.nodup_cons.mp hnd).1
          rw [h3] at h4
          exact absurd hfst h4
        | false => rfl
      rw [keyCount_cons_neg e t c hne]
      exact ih (List.nodup_cons.mp hnd).2 ht

/-- Membership through sorted insertion. -/
theorem mem_insByVal (x y : String × CatVal) (l : List (String × CatVal)) :
    y ∈ insByVal x l ↔ y = x ∨ y ∈ l := by
  induction l with
  | nil => simp [insByVal]
  | cons z t ih =>
    by_cases hc : natOfDigits x.1.data ≤ natOfDigits z.1.data
    · simp [insByVal, hc, List.mem_cons]
    · simp [insByVal, hc, List.mem_cons, ih]
      tauto

/-- Sorting the index keys preserves membership. -/
theorem mem_sortIdx (x : String × CatVal) (l : List (String × CatVal)) :
    x ∈ sortIdx l ↔ x ∈ l := by
  induction l with
  | nil => simp [sortIdx]
  | cons z t ih =>
    show x ∈ insByVal z (sortIdx t) ↔ _
    rw [mem_insByVal, ih, List.mem_cons]

/-- The object key ordering preserves membership. -/
theorem mem_objOrder (x : String × CatVal) (l : List (String × CatVal)) :
    x ∈ objOrder l ↔ x ∈ l := by
  unfold objOrder
  rw [List.mem_append, mem_sortIdx]
  constructor
  · rintro (h | h) <;> exact List.mem_of_mem_filter h
  · intro h
    by_cases hk : isIdxKey x.1 = true
    · exact Or.inl (List.mem_filter.mpr ⟨h, hk⟩)
    · exact Or.inr (List.mem_filter.mpr ⟨h, by simpa using hk⟩)

/-- Keys through sorted insertion of an entry. -/
theorem map_fst_insByVal (x : String × CatVal) (l : List (String × CatVal)) :
    (insByVal x l).map Prod.fst = insKeyByVal x.1 (l.map Prod.fst) := by
  induction l with
  | nil => rfl
  | cons z t ih =>
    by_cases hc : natOfDigits x.1.data ≤ natOfDigits z.1.data
    · simp [insByVal, insKeyByVal, hc]
    · simp [insByVal, insKeyByVal, hc, ih]

/-- Keys through the entry sort. -/
theorem map_fst_sortIdx (l : List (String × CatVal)) :
    (sortIdx l).map Prod.fst = sortKeys (l.map Prod.fst) := by
  induction l with
  | nil => rfl
  | cons z t ih =>
    show (insByVal z (sortIdx t)).map Prod.fst =
      insKeyByVal z.1 (sortKeys (t.map Prod.fst))
    rw [map_fst_insByVal, ih]

/-- Keys commute with filtering on the key. -/
theorem map_fst_filterP (p : String → Bool) (l : List (String × CatVal)) :
    (l.filter (fun e => p e.1)).map Prod.fst = (l.map Prod.fst).filter p := by
  induction l with
  | nil => rfl
  | cons z t ih =>
    cases hp : p z.1 with
    | true => simp [List.filter_cons, hp, ih]
    | false => simp [List.filter_cons, hp, ih]

/-- The key sequence of the object key ordering. -/
theorem map_fst_objOrder (l : List (String × CatVal)) :
    (objOrder l).map Prod.fst =
      sortKeys ((l.map Prod.fst).filter isIdxKey) ++
        (l.map Prod.fst).filter (fun s => !isIdxKey s) := by
  unfold objOrder
  rw [List.map_append, map_fst_sortIdx, map_fst_filterP isIdxKey,
    map_fst_filterP (fun s => !isIdxKey s)]

/-- `ratAdd` is rational addition. -/
theorem ratAdd_eq (x y : ℚ) : ratAdd x y = x + y := by
  simp [ratAdd, Rat.add_def x y, mkRat, Nat.mul_ne_zero x.den_nz y.den_nz]

/-- `ratDiv` is rational division, for a nonzero divisor. -/
theorem ratDiv_eq (x y : ℚ) (hy : y ≠ 0) : ratDiv x y = x / y := by
  rcases x with ⟨xn, xd, hxd, hxc⟩
  rcases y with ⟨yn, yd, hyd, hyc⟩
  have hyn : yn ≠ 0 := by
    intro h0
    exact hy (by rw [← Rat.num_eq_zero]; exact h0)
  have h1 : ((xd : ℚ)) ≠ 0 := Nat.cast_ne_zero.mpr hxd
  have h2 : ((yd : ℚ)) ≠ 0 := Nat.cast_ne_zero.mpr hyd
  have h3 : ((yn : ℚ)) ≠ 0 := Int.cast_ne_zero.mpr hyn
  show Rat.divInt (xn * ↑yd) (↑xd * yn) =
    (⟨xn, xd, hxd, hxc⟩ : ℚ) / ⟨yn, yd, hyd, hyc⟩
  rw [Rat.mk'_eq_divInt, Rat.mk'_eq_divInt, Rat.divInt_eq_div,
    Rat.divInt_eq_div, Rat.divInt_eq_div]
  push_cast
  field_simp

/-- `a || 0` on a number is the number itself (0 falls back to the 0 default,
which is the same value). -/
theorem jsOr_num_zero (z : ℚ) : jsOr (.jnum z) (.jnum 0) = .jnum z := by
  by_cases hz : z = 0
  · subst hz
    simp [jsOr, truthy]
  · simp [jsOr, truthy, hz]

/-- The price reduction over a snapshot of finite-number prices sums them. -/
theorem foldl_jsAdd (ps : List Product) (a : ℚ)
    (h : ∀ p ∈ ps, isNumVal p.price = true) :
    ps.foldl (fun acc p => jsAdd acc p.price) (.jnum a) =
      .jnum (a + (ps.map priceQ).sum) := by
  induction ps generalizing a with
  | nil => simp
  | cons p t ih =>
    obtain ⟨q, hq⟩ := isNumVal_exists (h p (List.mem_cons_self p t))
    rw [List.foldl_cons]
    have hstep : jsAdd (.jnum a) p.price = .jnum (a + q) := by
      rw [hq]
      simp [jsAdd, toNumber, ratAdd_eq]
    rw [hstep, ih (a + q) (fun x hx => h x (List.mem_cons_of_mem p hx))]
    rw [List.map_cons, List.sum_cons]
    have hpq : priceQ p = q := by simp [priceQ, hq]
    rw [hpq]
    congr 1
    ring

/-- C9 counterexample, in three parts. Key order: on a snapshot whose
categories are the numeric strings "2" then "1", the serialized histogram
keys are ["1", "2"] — a JavaScript object orders array-index-like keys
numerically — not the first-seen order ["2", "1"] the claim states.
Prototype chain: a category named "toString" reads the inherited
`Object.prototype.toString` (a truthy function), so `++` stores NaN
(serialized as null), never the occurrence count 1; and a category named
"__proto__" triggers the inherited `__proto__` accessor — the read yields
the truthy `Object.prototype` and the write is swallowed by its setter —
so no own key is ever created despite one occurrence. -/
theorem c9_numeric_category_order_counterexample :
    (statsOf [wCatTwo, wCatOne]).categories.map Prod.fst = ["1", "2"] ∧
    firstSeen ([wCatTwo, wCatOne].map catStr) = ["2", "1"] ∧
    (["1", "2"] : List String) ≠ ["2", "1"] ∧
    (statsOf [wToStr]).categories = [("toString", CatVal.nanCat)] ∧
    countStr "toString" ([wToStr].map catStr) = 1 ∧
    CatVal.nanCat ≠ CatVal.cnt 1 ∧
    (statsOf [wProtoCat]).categories = [] ∧
    countStr "__proto__" ([wProtoCat].map catStr) = 1 := by
  exact ⟨by decide, by decide, by decide, by decide, by decide, by decide,
    by decide, by decide⟩

/-- C9 amended: on every snapshot with finite-number prices, string
categories and boolean flags, the stats record has `totalProducts` the
snapshot size; `inStock`/`outOfStock` partitioning the snapshot by the
boolean flag; and `averagePrice` the arithmetic mean of the prices, defined
as 0 on the empty snapshot. The histogram is faithful only away from the
plain object's prototype chain: if no category is named "__proto__", its
key sequence is the array-index-like category names sorted numerically
followed by the remaining category names in first-seen order; and if
moreover no category name collides with an inherited `Object.prototype`
property, every entry's value is the count of that category's occurrences
(hence no zero or NaN values) and an entry exists exactly for the
categories that occur. -/
theorem c9_stats_aggregation (ps : List Product)
    (h : ∀ p ∈ ps, isNumVal p.price = true ∧ isStrVal p.category = true ∧
      isBoolVal p.inStock = true) :
    (statsOf ps).totalProducts = ps.length ∧
    (statsOf ps).inStock =
      (ps.filter (fun p => p.inStock == .jbool true)).length ∧
    (statsOf ps).outOfStock =
      (ps.filter (fun p => p.inStock == .jbool false)).length ∧
    (statsOf ps).inStock + (statsOf ps).outOfStock = ps.length ∧
    ((∀ p ∈ ps, (catStr p == "__proto__") = false) →
      (statsOf ps).categories.map Prod.fst =
        sortKeys ((firstSeen (ps.map catStr)).filter isIdxKey) ++
          (firstSeen (ps.map catStr)).filter (fun s => !isIdxKey s)) ∧
    ((∀ p ∈ ps, goodKey (catStr p) = true) →
      (∀ c v, (c, v) ∈ (statsOf ps).categories →
        v = .cnt (countStr c (ps.map catStr)) ∧
          0 < countStr c (ps.map catStr)) ∧
      (∀ c, (∃ v, (c, v) ∈ (statsOf ps).categories) ↔
        0 < countStr c (ps.map catStr))) ∧
    (ps = [] → (statsOf ps).averagePrice = .jnum 0) ∧
    (ps ≠ [] → (statsOf ps).averagePrice =
      .jnum ((ps.map priceQ).sum / (ps.length : ℚ))) := by
  have hhist : histAux ps = (ps.map catStr).foldl bumpCat [] := by
    unfold histAux catStr
    rw [List.foldl_map]
  have hmapcs : ∀ P : String → Prop, (∀ p ∈ ps, P (catStr p)) →
      ∀ x ∈ ps.map catStr, P x := by
    intro P hP x hx
    obtain ⟨p, hp, hpx⟩ := List.mem_map.mp hx
    exact hpx ▸ hP p hp
  have hkeys : (∀ x ∈ ps.map catStr, (x == "__proto__") = false) →
      (histAux ps).map Prod.fst = firstSeen (ps.map catStr) := by
    intro hpf
    rw [hhist, keys_foldl (ps.map catStr) [] hpf]
    simp [keyMem]
  refine ⟨rfl, ?_, ?_, ?_, ?_, ?_, ?_, ?_⟩
  · show (ps.filter (fun p => truthy p.inStock)).length = _
    congr 1
    apply List.filter_congr
    intro p hp
    obtain ⟨bl, hbl⟩ := isBoolVal_exists (h p hp).2.2
    rw [hbl]
    cases bl <;> rfl
  · show (ps.filter (fun p => !truthy p.inStock)).length = _
    congr 1
    apply List.filter_congr
    intro p hp
    obtain ⟨bl, hbl⟩ := isBoolVal_exists (h p hp).2.2
    rw [hbl]
    cases bl <;> rfl
  · exact (List.length_eq_length_filter_add (fun (p : Product) => truthy p.inStock)).symm
  · intro hproto
    show (objOrder (histAux ps)).map Prod.fst = _
    rw [map_fst_objOrder, hkeys (hmapcs _ hproto)]
  · intro hgood
    have hgcs : ∀ x ∈ ps.map catStr, goodKey x = true := hmapcs _ hgood
    have hpf : ∀ x ∈ ps.map catStr, (x == "__proto__") = false := by
      intro x hx
      have hg : (!protoProps.contains x && x != "__proto__") = true := hgcs x hx
      rw [Bool.and_eq_true] at hg
      cases hpp : (x == "__proto__") with
      | false => rfl
      | true => exact absurd (eq_of_beq hpp) (bne_iff_ne.mp hg.2)
    have hnd : ((histAux ps).map Prod.fst).Nodup := by
      rw [hkeys hpf]
      exact firstSeen_nodup _
    have htrip : ∀ c : String,
        (∀ v, keyCount (histAux ps) c = some v → ∃ n, v = .cnt n ∧ 0 < n) ∧
        catValNat (keyCount (histAux ps) c) = countStr c (ps.map catStr) ∧
        (keyCount (histAux ps) c).isSome =
          decide (0 < countStr c (ps.map catStr)) := by
      intro c
      have ht := keyCount_foldl_good (ps.map catStr) c [] hgcs
        (by intro v hv; cases hv)
      rw [← hhist] at ht
      obtain ⟨ht1, ht2, ht3⟩ := ht
      refine ⟨ht1, ?_, ?_⟩
      · rw [ht2]
        simp [keyCount, catValNat]
      · rw [ht3]
        rfl
    have hcount : ∀ c v, (c, v) ∈ (statsOf ps).categories →
        v = .cnt (countStr c (ps.map catStr)) ∧
          0 < countStr c (ps.map catStr) := by
      intro c v hmem
      have hmem2 : (c, v) ∈ histAux ps :=
        (mem_objOrder (c, v) (histAux ps)).mp hmem
      have hkc : keyCount (histAux ps) c = some v :=
        keyCount_of_mem_nodup _ hnd c v hmem2
      obtain ⟨ht1, ht2, _⟩ := htrip c
      obtain ⟨n, hvn, hn⟩ := ht1 v hkc
      rw [hkc, hvn] at ht2
      have hcv : n = countStr c (ps.map catStr) := by
        simpa [catValNat] using ht2
      exact ⟨by rw [hvn, hcv], hcv ▸ hn⟩
    refine ⟨hcount, ?_⟩
    intro c
    constructor
    · rintro ⟨v, hmem⟩
      exact (hcount c v hmem).2
    · intro hpos
      obtain ⟨_, _, ht3⟩ := htrip c
      have hsome : (keyCount (histAux ps) c).isSome = true := by
        rw [ht3]
        simpa using hpos
      obtain ⟨v, hv⟩ := Option.isSome_iff_exists.mp hsome
      obtain ⟨e, he1, he2⟩ := Option.map_eq_some'.mp hv
      have hp := List.find?_some he1
      have hm := List.mem_of_find?_eq_some he1
      have he : e = (c, v) := by
        obtain ⟨e1, e2⟩ := e
        simp only at he2
        simp only [beq_iff_eq] at hp
        rw [hp, he2]
      exact ⟨v, (mem_objOrder (c, v) (histAux ps)).mpr (he ▸ hm)⟩
  · intro h0
    subst h0
    decide
  · intro hne
    have hnums : ∀ p ∈ ps, isNumVal p.price = true := fun p hp => (h p hp).1
    have hlen0 : ps.length ≠ 0 := fun hl => hne (List.length_eq_zero.mp hl)
    have hlenQ : ((ps.length : ℚ)) ≠ 0 := Nat.cast_ne_zero.mpr hlen0
    show jsOr (jsDiv (ps.foldl (fun acc p => jsAdd acc p.price) (.jnum 0))
      (.jnum (ps.length : ℚ))) (.jnum 0) = _
    rw [foldl_jsAdd ps 0 hnums, zero_add]
    have hdiv : jsDiv (.jnum ((ps.map priceQ).sum)) (.jnum (ps.length : ℚ)) =
        .jnum ((ps.map priceQ).sum / (ps.length : ℚ)) := by
      simp [jsDiv, toNumber, hlenQ, ratDiv_eq _ _ hlenQ]
    rw [hdiv, jsOr_num_zero]

/-- Witness for C9 at a concrete three-product snapshot whose category
names avoid the prototype chain. -/
theorem c9_stats_aggregation_witness :
    (∀ p ∈ [wLaptop, wPhone, wBook],
      isNumVal p.price = true ∧ isStrVal p.category = true ∧
        isBoolVal p.inStock = true) ∧
    (∀ p ∈ [wLaptop, wPhone, wBook], goodKey (catStr p) = true) ∧
    (statsOf [wLaptop, wPhone, wBook]).totalProducts = 3 ∧
    (statsOf [wLaptop, wPhone, wBook]).inStock = 2 ∧
    (statsOf [wLaptop, wPhone, wBook]).outOfStock = 1 ∧
    (statsOf [wLaptop, wPhone, wBook]).categories.map Prod.fst =
      ["Electronics", "Books"] ∧
    (statsOf [wLaptop, wPhone, wBook]).categories =
      [("Electronics", CatVal.cnt 2), ("Books", CatVal.cnt 1)] ∧
    (statsOf [wLaptop, wPhone, wBook]).averagePrice = .jnum 570 :=
  ⟨by decide, by decide, by
    have h := c9_stats_aggregation [wLaptop, wPhone, wBook] (by decide)
    exact ⟨h.1.trans (by decide), h.2.1.trans (by decide),
      h.2.2.1.trans (by decide),
      (h.2.2.2.2.1 (by decide)).trans (by decide), by decide, by decide⟩⟩

end ExpressProducts
